import Mathlib

/-!
Verification of the target-resolution and occurrence-selection core of the
commenter repository (src/comment.py), as a shallow embedding in Lean.

Text is modelled as a list of characters.  The Python regular-expression
library is external to the repository; where the code hands it a literal
(escaped) pattern wrapped in word-boundary assertions, the known semantics of
that fixed regex shape are embedded directly (wholeWordContains below); where
the code hands it an arbitrary user regex, the search is a parameter of the
model (the functions take a `search` oracle standing for re.search).
-/

/-- Text content, as an explicit character list (Python str). -/
abbrev Chars := List Char

/-- Python regex word character for the ASCII range: [A-Za-z0-9_]. -/
def isWordChar (c : Char) : Bool := c.isAlphanum || c = '_'

/-- Python str.lower, character-wise (ASCII). -/
def lowerChars (l : Chars) : Chars := l.map Char.toLower

/-- Python `not s.strip()`: true when the text is empty or all whitespace. -/
def isBlank (l : Chars) : Bool := l.all Char.isWhitespace

/-- Does the first list occur at the head of the second (string prefix test). -/
def startsList : Chars → Chars → Bool
  | [], _ => true
  | _ :: _, [] => false
  | a :: as, b :: bs => (a == b) && startsList as bs

/-- Python `pat in text`: substring containment. -/
def containsSub (pat text : Chars) : Bool :=
  (List.range (text.length + 1)).any (fun i => startsList pat (text.drop i))

/-- Is the character at index i a word character (false out of range). -/
def wordAt (text : Chars) (i : Nat) : Bool :=
  ((text.get? i).map isWordChar).getD false

/-- Semantics of the regex word-boundary assertion at position i of text:
word-character-ness changes between the character before i and the character
at i (positions outside the text count as non-word). -/
def boundaryAt (text : Chars) (i : Nat) : Bool :=
  (if i = 0 then false else wordAt text (i - 1)) != wordAt text i

/-- A match of the fixed regex shape backslash-b, escaped pattern,
backslash-b starting at position i of text. -/
def wwOccursAt (pat text : Chars) (i : Nat) : Bool :=
  startsList pat (text.drop i) && boundaryAt text i &&
    boundaryAt text (i + pat.length)

/-- Semantics of re.search of the fixed shape backslash-b, re.escape(pat),
backslash-b over text: some starting position carries such a match. -/
def wholeWordContains (pat text : Chars) : Bool :=
  (List.range (text.length + 1)).any (wwOccursAt pat text)

/-- The textual wrapping the code applies to a raw regex pattern when
whole_word is set: backslash-b on both sides (comment.py lines 175-176). -/
def wordBWrap (p : Chars) : Chars := '\\' :: 'b' :: (p ++ ['\\', 'b'])

/-- The match_type field: the code only distinguishes the string "regex";
every other value (including the default "exact") takes the literal branch. -/
inductive MatchType
  | regex
  | exact
deriving DecidableEq

/-- Outcome of reading the occurrence field, as the code discriminates it:
the strings "first" and "all", a value int() accepts (with its parsed value),
or anything int() rejects (comment.py lines 228-244, 307-317). -/
inductive OccStr
  | first
  | all
  | num (n : Int)
  | malformed
deriving DecidableEq

/-- Outcome of reading the mode tag: "text", "position", or any other
unrecognized string. -/
inductive ModeTag
  | text
  | position
  | other
deriving DecidableEq

/-- A rectangle as fitz.Rect stores it: the four numbers given. -/
structure Rect where
  x0 : Int
  y0 : Int
  x1 : Int
  y1 : Int
deriving DecidableEq

/-- fitz.Rect.tl: the top-left point (x0, y0). -/
def Rect.tl (r : Rect) : Int × Int := (r.x0, r.y0)

/-- The target dictionary of one annotation spec.  Every field is optional,
mirroring dict.get with its default at each use site. -/
structure Target where
  mode : Option ModeTag
  text : Option Chars
  match_type : Option MatchType
  case_sensitive : Option Bool
  whole_word : Option Bool
  occurrence : Option OccStr
  pdfPage : Option Int
  pdfBbox : Option Rect
deriving DecidableEq

/-- The comment payload of one annotation spec. -/
structure CommentSpec where
  text : Chars
  author : Chars
deriving DecidableEq

/-- One annotation spec: a target plus a comment payload.  The payload is
copied verbatim onto every anchor and plays no part in resolution. -/
structure Ann where
  target : Target
  comment : CommentSpec
deriving DecidableEq

/-- A docx paragraph: its text, and how many runs paragraph.runs yields
(python-docx can report a non-empty text with an empty run list, e.g. for a
hyperlink-only paragraph, so the two are independent here). -/
structure Paragraph where
  text : Chars
  runs : Nat
deriving DecidableEq

/-- match_text_in_paragraph (comment.py lines 151-185).  The regex branch
hands the pattern to the external regex engine, modelled by the `search`
oracle (pattern, text, ignore-case flag); the literal branch is embedded
concretely, including the word-boundary wrapping of the escaped pattern. -/
def match_text_in_paragraph (search : Chars → Chars → Bool → Bool)
    (paragraph_text target_text : Chars) (match_type : MatchType)
    (case_sensitive whole_word : Bool) : Bool :=
  let paragraph_text_cmp :=
    if case_sensitive then paragraph_text else lowerChars paragraph_text
  let target_text_cmp :=
    if case_sensitive then target_text else lowerChars target_text
  match match_type with
  | .regex =>
      let pattern := if whole_word then wordBWrap target_text else target_text
      search pattern paragraph_text (!case_sensitive)
  | .exact =>
      if whole_word then wholeWordContains target_text_cmp paragraph_text_cmp
      else containsSub target_text_cmp paragraph_text_cmp

/-- The effective per-paragraph condition of the annotate_docx loop: the
paragraph is not blank (line 217) and match_text_in_paragraph accepts it
under the target options with their dict.get defaults (lines 204-207, 220). -/
def unitMatches (search : Chars → Chars → Bool → Bool) (t : Target)
    (p : Paragraph) : Bool :=
  !isBlank p.text &&
    match_text_in_paragraph search p.text (t.text.getD [])
      (t.match_type.getD .exact) (t.case_sensitive.getD false)
      (t.whole_word.getD true)

/-- int(occurrence) with the except-branch default 1 (lines 238-241):
a parsed integer keeps its value, anything else becomes 1. -/
def occNumOf : OccStr → Int
  | .num n => n
  | _ => 1

/-- The paragraph loop of annotate_docx (lines 215-244), over index-tagged
paragraphs, carrying match_count; returns the paragraphs selected for
commenting (the paragraphs add_comment_to_paragraph is called on), in order.
The break statements become returning a final singleton. -/
def docxLoop (search : Chars → Chars → Bool → Bool) (t : Target)
    (occ : OccStr) : List (Nat × Paragraph) → Nat → List (Nat × Paragraph)
  | [], _ => []
  | (i, p) :: rest, match_count =>
    if unitMatches search t p then
      match occ with
      | .all => (i, p) :: docxLoop search t occ rest (match_count + 1)
      | .first =>
          if match_count + 1 = 1 then [(i, p)]
          else docxLoop search t occ rest (match_count + 1)
      | o =>
          if (match_count + 1 : Int) = occNumOf o then [(i, p)]
          else docxLoop search t occ rest (match_count + 1)
    else docxLoop search t occ rest match_count

/-- Tag each list element with its index, starting at i. -/
def withIdx : Nat → List Paragraph → List (Nat × Paragraph)
  | _, [] => []
  | i, p :: ps => (i, p) :: withIdx (i + 1) ps

/-- Resolution of one spec against a docx document (one iteration of the
outer loop of annotate_docx, lines 191-244): the mode gate (lines 194-198),
the empty-text gate (lines 200-202), then the paragraph loop.  Returns the
selected (index, paragraph) pairs. -/
def docxSpecSelected (search : Chars → Chars → Bool → Bool)
    (paras : List Paragraph) (t : Target) : List (Nat × Paragraph) :=
  if t.mode.getD .text ≠ .text then []
  else if t.text.getD [] = [] then []
  else docxLoop search t (t.occurrence.getD .first) (withIdx 0 paras) 0

/-- The anchors one docx spec emits: the indices of the selected units. -/
def docxSpecAnchors (search : Chars → Chars → Bool → Bool)
    (paras : List Paragraph) (t : Target) : List Nat :=
  (docxSpecSelected search paras t).map (·.1)

/-- The units that actually receive a Word comment: add_comment_to_paragraph
(lines 139-148) silently returns when paragraph.runs is empty, so the
selected units are filtered by having at least one run. -/
def docxSpecCommented (search : Chars → Chars → Bool → Bool)
    (paras : List Paragraph) (t : Target) : List Nat :=
  ((docxSpecSelected search paras t).filter (fun ip => ip.2.runs != 0)).map (·.1)

/-- The batch loop of annotate_docx: each spec is resolved against the
unchanged paragraph list (adding comments alters no paragraph text), and the
emitted anchors are concatenated in spec order. -/
def annotate_docx (search : Chars → Chars → Bool → Bool)
    (paras : List Paragraph) : List Ann → List Nat
  | [] => []
  | a :: rest =>
      docxSpecAnchors search paras a.target ++ annotate_docx search paras rest

/-- One pdf page, by its search results: page.search_for(text) as a function
of the searched text (the searching itself is PyMuPDF, external to the
repository). -/
structure Page where
  searchRes : Chars → List Rect

/-- A pdf document: its ordered pages. -/
structure PdfDoc where
  pages : List Page

/-- An anchor annotate_pdf places: a text note at a point (position mode,
line 275) or a highlight over a rectangle (text mode, line 303). -/
inductive PdfAnchor
  | note (pageIdx : Nat) (pt : Int × Int)
  | highl (pageIdx : Nat) (r : Rect)
deriving DecidableEq

/-- The matches_global accumulation (lines 288-294): per page in order, each
search rectangle tagged with its 0-based page index. -/
def pdfMatches (i : Nat) : List Page → Chars → List (Nat × Rect)
  | [], _ => []
  | pg :: rest, text =>
      (pg.searchRes text).map (fun r => (i, r)) ++ pdfMatches (i + 1) rest text

/-- All matches of a text across the document, in page order then in-page
order. -/
def pdfMatchesGlobal (doc : PdfDoc) (text : Chars) : List (Nat × Rect) :=
  pdfMatches 0 doc.pages text

/-- Resolution of one spec against a pdf document (one iteration of the
outer loop of annotate_pdf, lines 256-320): position mode with its bbox and
page-range gates, otherwise text mode with the occurrence selection over
matches_global. -/
def pdfSpecAnchors (doc : PdfDoc) (t : Target) : List PdfAnchor :=
  if t.mode.getD .text = .position then
    let page_index : Int := t.pdfPage.getD 1 - 1
    match t.pdfBbox with
    | none => []
    | some b =>
        if 0 ≤ page_index ∧ page_index < (doc.pages.length : Int) then
          [PdfAnchor.note page_index.toNat (Rect.tl b)]
        else []
  else
    let text := t.text.getD []
    if text = [] then []
    else
      let mg := pdfMatchesGlobal doc text
      if mg = [] then []
      else
        match t.occurrence.getD .first with
        | .all => mg.map (fun m => PdfAnchor.highl m.1 m.2)
        | o =>
            let idx := occNumOf o
            if 1 ≤ idx ∧ idx ≤ (mg.length : Int) then
              ((mg.drop (idx - 1).toNat).take 1).map
                (fun m => PdfAnchor.highl m.1 m.2)
            else []

/-- The batch loop of annotate_pdf: anchors concatenated in spec order. -/
def annotate_pdf (doc : PdfDoc) : List Ann → List PdfAnchor
  | [] => []
  | a :: rest => pdfSpecAnchors doc a.target ++ annotate_pdf doc rest

/-- The matching units of a docx document for one spec: the index-tagged
paragraphs satisfying the effective match condition, in document order. -/
def docxMatchUnits (search : Chars → Chars → Bool → Bool)
    (paras : List Paragraph) (t : Target) : List (Nat × Paragraph) :=
  (withIdx 0 paras).filter (fun ip => unitMatches search t ip.2)

/-- The indices of the matching units, in document order. -/
def docxMatchIdxs (search : Chars → Chars → Bool → Bool)
    (paras : List Paragraph) (t : Target) : List Nat :=
  (docxMatchUnits search paras t).map (·.1)

/-- A degenerate regex oracle (never matches), used to instantiate the
search parameter on concrete literal-mode examples, where it is unused. -/
def noSearch : Chars → Chars → Bool → Bool := fun _ _ _ => false

/-- The loop with occurrence all keeps exactly the matching units. -/
lemma docxLoop_all (search : Chars → Chars → Bool → Bool) (t : Target)
    (l : List (Nat × Paragraph)) : ∀ mc : Nat,
    docxLoop search t .all l mc =
      l.filter (fun ip => unitMatches search t ip.2) := by
  induction l with
  | nil => intro mc; rfl
  | cons a rest ih =>
    intro mc
    obtain ⟨i, p⟩ := a
    by_cases hu : unitMatches search t p
    · simp [docxLoop, hu, ih, List.filter_cons]
    · simp [docxLoop, hu, ih, List.filter_cons]

/-- Generic selection of the element at accepted-count k (1-based), the
common shape of the first and nth branches of the loop. -/
def nthPick {α : Type} (u : α → Bool) (k : Int) : List α → Nat → List α
  | [], _ => []
  | a :: rest, mc =>
    if u a then
      if (mc + 1 : Int) = k then [a] else nthPick u k rest (mc + 1)
    else nthPick u k rest mc

/-- For any occurrence other than all, the loop is nthPick at the parsed
occurrence number (1 for first and for malformed values). -/
lemma docxLoop_eq_nthPick (search : Chars → Chars → Bool → Bool) (t : Target)
    (occ : OccStr) (h : occ ≠ OccStr.all) (l : List (Nat × Paragraph)) :
    ∀ mc : Nat, docxLoop search t occ l mc =
      nthPick (fun ip => unitMatches search t ip.2) (occNumOf occ) l mc := by
  induction l with
  | nil => intro mc; cases occ <;> rfl
  | cons a rest ih =>
    intro mc
    obtain ⟨i, p⟩ := a
    cases occ with
    | all => exact absurd rfl h
    | first =>
      by_cases hu : unitMatches search t p
      · by_cases h1 : mc = 0
        · subst h1; simp [docxLoop, nthPick, occNumOf, hu]
        · have h2 : ¬(mc + 1 = 1) := by omega
          have h3 : ¬((mc : Int) + 1 = 1) := by omega
          simp [docxLoop, nthPick, occNumOf, hu, h2, h3, ih]
      · simp [docxLoop, nthPick, occNumOf, hu, ih]
    | num n =>
      by_cases hu : unitMatches search t p
      · by_cases h1 : ((mc : Int) + 1 = n)
        · simp [docxLoop, nthPick, occNumOf, hu, h1]
        · simp [docxLoop, nthPick, occNumOf, hu, h1, ih]
      · simp [docxLoop, nthPick, occNumOf, hu, ih]
    | malformed =>
      by_cases hu : unitMatches search t p
      · by_cases h1 : ((mc : Int) + 1 = 1)
        · simp [docxLoop, nthPick, occNumOf, hu, h1]
        · simp [docxLoop, nthPick, occNumOf, hu, h1, ih]
      · simp [docxLoop, nthPick, occNumOf, hu, ih]

/-- Closed form of nthPick: drop the first k - mc - 1 accepted elements and
take one, empty when the count is already past k. -/
lemma nthPick_eq {α : Type} (u : α → Bool) (k : Int) (l : List α) :
    ∀ mc : Nat, nthPick u k l mc =
      if k ≤ (mc : Int) then []
      else ((l.filter u).drop (k - mc - 1).toNat).take 1 := by
  induction l with
  | nil => intro mc; simp [nthPick]
  | cons a rest ih =>
    intro mc
    by_cases hu : u a
    · by_cases hk : ((mc : Int) + 1 = k)
      · have h1 : ¬ k ≤ (mc : Int) := by omega
        have h2 : (k - mc - 1).toNat = 0 := by omega
        simp [nthPick, hu, hk, h1, h2, List.filter_cons]
      · by_cases h1 : k ≤ (mc : Int)
        · have h1' : k ≤ (mc : Int) + 1 := by omega
          simp [nthPick, hu, hk, ih, h1, h1']
        · have h2 : ¬ k ≤ (mc : Int) + 1 := by omega
          have h3 : (k - mc - 1).toNat = (k - ((mc : Int) + 1) - 1).toNat + 1 := by
            omega
          simp only [nthPick, hu, if_true, hk, if_false, ih, Nat.cast_add,
            Nat.cast_one, h2, h1, List.filter_cons, if_neg]
          simp [hu, h3, List.filter_cons]
    · simp [nthPick, hu, ih, List.filter_cons]

/-- Taking one element after dropping k is the optional k-th element. -/
lemma take_one_drop {α : Type} (l : List α) : ∀ k : Nat,
    (l.drop k).take 1 = (l.get? k).toList := by
  induction l with
  | nil => intro k; simp
  | cons a rest ih =>
    intro k
    cases k with
    | zero => simp
    | succ k => simpa using ih k

/-- Membership in withIdx: exactly the list elements, tagged by position. -/
lemma withIdx_mem (l : List Paragraph) : ∀ (i j : Nat) (p : Paragraph),
    ((j, p) ∈ withIdx i l) ↔ ∃ k, l.get? k = some p ∧ j = i + k := by
  induction l with
  | nil => intro i j p; simp [withIdx]
  | cons q rest ih =>
    intro i j p
    simp only [withIdx, List.mem_cons, ih]
    constructor
    · rintro (h | ⟨k, hk, rfl⟩)
      · rcases Prod.mk.injEq .. ▸ h with ⟨rfl, rfl⟩
        exact ⟨0, by simp⟩
      · exact ⟨k + 1, by simpa using hk, by omega⟩
    · rintro ⟨k, hk, rfl⟩
      cases k with
      | zero =>
        left
        simp only [List.get?] at hk
        cases hk
        simp
      | succ k =>
        right
        exact ⟨k, by simpa using hk, by omega⟩

/-- Membership in withIdx from index 0 is list indexing. -/
lemma withIdx_mem_zero (l : List Paragraph) (j : Nat) (p : Paragraph) :
    ((j, p) ∈ withIdx 0 l) ↔ l.get? j = some p := by
  rw [withIdx_mem]
  constructor
  · rintro ⟨k, hk, rfl⟩; simpa using hk
  · intro h; exact ⟨j, h, by omega⟩

/-- The index tags of withIdx are strictly increasing. -/
lemma withIdx_pairwise (l : List Paragraph) : ∀ i : Nat,
    List.Pairwise (fun a b : Nat × Paragraph => a.1 < b.1) (withIdx i l) := by
  induction l with
  | nil => intro i; simp [withIdx]
  | cons q rest ih =>
    intro i
    refine List.Pairwise.cons ?_ (ih (i + 1))
    intro b hb
    obtain ⟨j, p⟩ := b
    rw [withIdx_mem] at hb
    obtain ⟨k, _, rfl⟩ := hb
    simp
    omega

/-- Filtering withIdx on the element predicate counts like countP. -/
lemma withIdx_filter_length (u : Paragraph → Bool) (l : List Paragraph) :
    ∀ i, ((withIdx i l).filter (fun ip => u ip.2)).length = l.countP u := by
  induction l with
  | nil => intro i; simp [withIdx]
  | cons q rest ih =>
    intro i
    by_cases hu : u q
    · simp [withIdx, List.filter_cons, hu, List.countP_cons, ih]
    · simp [withIdx, List.filter_cons, hu, List.countP_cons, ih]

/-- The loop result only depends on the target through the unit condition. -/
lemma docxLoop_congr (search : Chars → Chars → Bool → Bool) (t t' : Target)
    (h : ∀ p, unitMatches search t p = unitMatches search t' p) (occ : OccStr)
    (l : List (Nat × Paragraph)) : ∀ mc,
    docxLoop search t occ l mc = docxLoop search t' occ l mc := by
  induction l with
  | nil => intro mc; rfl
  | cons a rest ih =>
    intro mc
    obtain ⟨i, p⟩ := a
    cases occ <;> simp only [docxLoop, h, ih]

/-- Unfolding docxSpecSelected for a text-mode spec with non-empty pattern. -/
lemma docxSpecSelected_text (search : Chars → Chars → Bool → Bool)
    (paras : List Paragraph) (t : Target)
    (hm : t.mode.getD .text = ModeTag.text) (ht : t.text.getD [] ≠ []) :
    docxSpecSelected search paras t =
      docxLoop search t (t.occurrence.getD .first) (withIdx 0 paras) 0 := by
  simp [docxSpecSelected, hm, ht]

/-- Occurrence all selects every matching unit. -/
lemma docxSpecSelected_all (search : Chars → Chars → Bool → Bool)
    (paras : List Paragraph) (t : Target)
    (hm : t.mode.getD .text = ModeTag.text) (ht : t.text.getD [] ≠ [])
    (ho : t.occurrence.getD .first = .all) :
    docxSpecSelected search paras t = docxMatchUnits search paras t := by
  rw [docxSpecSelected_text search paras t hm ht, ho, docxLoop_all]
  rfl

/-- Any other occurrence selects the unit at the parsed occurrence number
among the matching units. -/
lemma docxSpecSelected_nth (search : Chars → Chars → Bool → Bool)
    (paras : List Paragraph) (t : Target)
    (hm : t.mode.getD .text = ModeTag.text) (ht : t.text.getD [] ≠ [])
    (hocc : t.occurrence.getD .first ≠ .all) :
    docxSpecSelected search paras t =
      if occNumOf (t.occurrence.getD .first) ≤ 0 then []
      else ((docxMatchUnits search paras t).drop
        (occNumOf (t.occurrence.getD .first) - 1).toNat).take 1 := by
  rw [docxSpecSelected_text search paras t hm ht,
    docxLoop_eq_nthPick search t _ hocc, nthPick_eq]
  simp [docxMatchUnits]

/-- Text-mode pdf resolution with occurrence all highlights every match. -/
lemma pdfSpecAnchors_all (doc : PdfDoc) (t : Target)
    (hm : t.mode.getD .text ≠ ModeTag.position) (ht : t.text.getD [] ≠ [])
    (ho : t.occurrence.getD .first = OccStr.all) :
    pdfSpecAnchors doc t =
      (pdfMatchesGlobal doc (t.text.getD [])).map
        (fun m => PdfAnchor.highl m.1 m.2) := by
  simp only [pdfSpecAnchors, if_neg hm, if_neg ht, ho]
  by_cases hmg : pdfMatchesGlobal doc (t.text.getD []) = []
  · simp [hmg]
  · simp [hmg]

/-- Text-mode pdf resolution with any other occurrence takes the match at
the parsed occurrence number of matches_global. -/
lemma pdfSpecAnchors_nth (doc : PdfDoc) (t : Target)
    (hm : t.mode.getD .text ≠ ModeTag.position) (ht : t.text.getD [] ≠ [])
    (o : OccStr) (ho : t.occurrence.getD .first = o) (hno : o ≠ OccStr.all)
    (hn : 1 ≤ occNumOf o) :
    pdfSpecAnchors doc t =
      (((pdfMatchesGlobal doc (t.text.getD [])).drop
          (occNumOf o - 1).toNat).take 1).map
        (fun m => PdfAnchor.highl m.1 m.2) := by
  simp only [pdfSpecAnchors, if_neg hm, if_neg ht, ho]
  by_cases hmg : pdfMatchesGlobal doc (t.text.getD []) = []
  · rw [if_pos hmg, hmg]
    cases o with
    | all => exact absurd rfl hno
    | first => simp
    | num n => simp
    | malformed => simp
  · rw [if_neg hmg]
    by_cases hb : 1 ≤ occNumOf o ∧
      occNumOf o ≤ ((pdfMatchesGlobal doc (t.text.getD [])).length : Int)
    · cases o with
      | all => exact absurd rfl hno
      | first => rw [if_pos hb]
      | num n => rw [if_pos hb]
      | malformed => rw [if_pos hb]
    · have hdrop : (pdfMatchesGlobal doc (t.text.getD [])).drop
          (occNumOf o - 1).toNat = [] := by
        rw [List.drop_eq_nil_iff]; omega
      cases o with
      | all => exact absurd rfl hno
      | first => rw [if_neg hb, hdrop]; rfl
      | num n => rw [if_neg hb, hdrop]; rfl
      | malformed => rw [if_neg hb, hdrop]; rfl

/-- C1: with occurrence First, the emitted anchor list is the first matching
unit index alone (empty when nothing matches), and any emitted anchor is a
matching unit of minimum index: no later unit is ever selected. -/
theorem c1_first_selects_min (search : Chars → Chars → Bool → Bool)
    (paras : List Paragraph) (t : Target)
    (hm : t.mode.getD .text = ModeTag.text) (ht : t.text.getD [] ≠ [])
    (ho : t.occurrence.getD .first = OccStr.first) :
    docxSpecAnchors search paras t = (docxMatchIdxs search paras t).take 1
    ∧ (docxSpecAnchors search paras t = [] ↔
        ∀ j p, paras.get? j = some p → unitMatches search t p = false)
    ∧ ∀ j ∈ docxSpecAnchors search paras t,
        (∃ p, paras.get? j = some p ∧ unitMatches search t p = true)
        ∧ ∀ j' p', paras.get? j' = some p' →
            unitMatches search t p' = true → j ≤ j' := by
  have hocc : t.occurrence.getD .first ≠ OccStr.all := by rw [ho]; simp
  have hsel : docxSpecSelected search paras t =
      (docxMatchUnits search paras t).take 1 := by
    rw [docxSpecSelected_nth search paras t hm ht hocc, ho]
    norm_num [occNumOf]
  have hanch : docxSpecAnchors search paras t =
      (docxMatchIdxs search paras t).take 1 := by
    rw [docxSpecAnchors, hsel, docxMatchIdxs, List.map_take]
  have hpw : List.Pairwise (fun a b : Nat × Paragraph => a.1 < b.1)
      (docxMatchUnits search paras t) :=
    List.Pairwise.sublist (List.filter_sublist _) (withIdx_pairwise paras 0)
  refine ⟨hanch, ?_, ?_⟩
  · rw [hanch]
    constructor
    · intro hnil j p hj
      cases hu : unitMatches search t p with
      | false => rfl
      | true =>
        exfalso
        have hmem : (j, p) ∈ docxMatchUnits search paras t :=
          List.mem_filter.mpr ⟨(withIdx_mem_zero paras j p).mpr hj, hu⟩
        cases hMU : docxMatchUnits search paras t with
        | nil => rw [hMU] at hmem; exact absurd hmem (List.not_mem_nil _)
        | cons a restMU =>
          rw [docxMatchIdxs, hMU] at hnil
          simp at hnil
    · intro hnone
      cases hMU : docxMatchUnits search paras t with
      | nil => rw [docxMatchIdxs, hMU]; rfl
      | cons a restMU =>
        exfalso
        obtain ⟨ja, pa⟩ := a
        have hmem : (ja, pa) ∈ docxMatchUnits search paras t := by
          rw [hMU]; exact List.mem_cons_self _ _
        have hfm := List.mem_filter.mp hmem
        have hget := (withIdx_mem_zero paras ja pa).mp hfm.1
        have htrue : unitMatches search t pa = true := hfm.2
        have hfalse := hnone ja pa hget
        rw [htrue] at hfalse
        exact Bool.noConfusion hfalse
  · intro j hj
    rw [hanch] at hj
    cases hMU : docxMatchUnits search paras t with
    | nil =>
      rw [docxMatchIdxs, hMU] at hj
      exact absurd hj (List.not_mem_nil _)
    | cons a restMU =>
      obtain ⟨ja, pa⟩ := a
      rw [docxMatchIdxs, hMU] at hj
      simp only [List.map_cons, List.take_succ_cons, List.take_zero,
        List.mem_singleton] at hj
      subst hj
      have hmem : (j, pa) ∈ docxMatchUnits search paras t := by
        rw [hMU]; exact List.mem_cons_self _ _
      have hfm := List.mem_filter.mp hmem
      refine ⟨⟨pa, (withIdx_mem_zero paras j pa).mp hfm.1, hfm.2⟩, ?_⟩
      intro j' p' hg' hu'
      have hmem' : (j', p') ∈ docxMatchUnits search paras t :=
        List.mem_filter.mpr ⟨(withIdx_mem_zero paras j' p').mpr hg', hu'⟩
      rw [hMU] at hmem'
      rcases List.mem_cons.mp hmem' with heq | hrest
      · cases heq; exact Nat.le_refl _
      · have hpw' := hMU ▸ hpw
        have := (List.pairwise_cons.mp hpw').1 _ hrest
        exact Nat.le_of_lt this

/-- Demo document: a blank paragraph, a non-matching one, two matches for
the pattern cat, the second with a single run. -/
def demoParas : List Paragraph :=
  [⟨"  ".toList, 1⟩, ⟨"dog sat".toList, 1⟩, ⟨"the CAT sat".toList, 2⟩,
    ⟨"cat".toList, 1⟩]

/-- Demo text-mode target, occurrence first, all options defaulted. -/
def demoFirst : Target :=
  ⟨some .text, some "cat".toList, none, none, none, some .first, none, none⟩

/-- Demo text-mode target, occurrence all. -/
def demoAll : Target :=
  ⟨some .text, some "cat".toList, none, none, none, some .all, none, none⟩

/-- Demo text-mode target, occurrence the integer string 2. -/
def demoN2 : Target :=
  ⟨some .text, some "cat".toList, none, none, none, some (.num 2), none, none⟩

/-- A demo page whose literal search finds the given rectangles for the
pattern cat and nothing otherwise. -/
def demoPg (l : List Rect) : Page :=
  ⟨fun s => if s = "cat".toList then l else []⟩

/-- A three-page demo pdf with one cat match on page 0 and two on page 2. -/
def demoDoc : PdfDoc :=
  ⟨[demoPg [⟨1, 2, 3, 4⟩], demoPg [], demoPg [⟨5, 6, 7, 8⟩, ⟨9, 10, 11, 12⟩]]⟩

/-- Witness for C1 at a concrete document and spec. -/
theorem c1_first_selects_min_witness :
    docxSpecAnchors noSearch demoParas demoFirst =
      (docxMatchIdxs noSearch demoParas demoFirst).take 1
    ∧ (docxSpecAnchors noSearch demoParas demoFirst = [] ↔
        ∀ j p, demoParas.get? j = some p →
          unitMatches noSearch demoFirst p = false)
    ∧ ∀ j ∈ docxSpecAnchors noSearch demoParas demoFirst,
        (∃ p, demoParas.get? j = some p ∧
          unitMatches noSearch demoFirst p = true)
        ∧ ∀ j' p', demoParas.get? j' = some p' →
            unitMatches noSearch demoFirst p' = true → j ≤ j' :=
  c1_first_selects_min noSearch demoParas demoFirst (by decide) (by decide)
    (by decide)

/-- C2: with occurrence All, the docx anchors are exactly the matching unit
indices, as many as there are matching units, in strictly ascending order;
the pdf anchors are highlights on every global match in document order. -/
theorem c2_all_every_match (search : Chars → Chars → Bool → Bool)
    (paras : List Paragraph) (t : Target) (doc : PdfDoc)
    (hm : t.mode.getD .text = ModeTag.text) (ht : t.text.getD [] ≠ [])
    (ho : t.occurrence.getD .first = OccStr.all) :
    docxSpecAnchors search paras t = docxMatchIdxs search paras t
    ∧ (docxSpecAnchors search paras t).length =
        paras.countP (unitMatches search t)
    ∧ List.Pairwise (· < ·) (docxSpecAnchors search paras t)
    ∧ pdfSpecAnchors doc t =
        (pdfMatchesGlobal doc (t.text.getD [])).map
          (fun m => PdfAnchor.highl m.1 m.2) := by
  have hmp : t.mode.getD .text ≠ ModeTag.position := by rw [hm]; simp
  have hanch : docxSpecAnchors search paras t = docxMatchIdxs search paras t := by
    rw [docxSpecAnchors, docxSpecSelected_all search paras t hm ht ho,
      docxMatchIdxs]
  have hpw : List.Pairwise (fun a b : Nat × Paragraph => a.1 < b.1)
      (docxMatchUnits search paras t) :=
    List.Pairwise.sublist (List.filter_sublist _) (withIdx_pairwise paras 0)
  refine ⟨hanch, ?_, ?_, pdfSpecAnchors_all doc t hmp ht ho⟩
  · rw [hanch, docxMatchIdxs, List.length_map, docxMatchUnits,
      withIdx_filter_length]
  · rw [hanch, docxMatchIdxs]
    exact List.pairwise_map.mpr hpw

/-- Witness for C2 at a concrete document and spec. -/
theorem c2_all_every_match_witness :
    docxSpecAnchors noSearch demoParas demoAll =
      docxMatchIdxs noSearch demoParas demoAll
    ∧ (docxSpecAnchors noSearch demoParas demoAll).length =
        demoParas.countP (unitMatches noSearch demoAll)
    ∧ List.Pairwise (· < ·) (docxSpecAnchors noSearch demoParas demoAll)
    ∧ pdfSpecAnchors demoDoc demoAll =
        (pdfMatchesGlobal demoDoc (demoAll.text.getD [])).map
          (fun m => PdfAnchor.highl m.1 m.2) :=
  c2_all_every_match noSearch demoParas demoAll demoDoc (by decide) (by decide)
    (by decide)

/-- C3: with occurrence Nth(n), n positive, the anchors are the single
matching unit at 1-based position n (none when fewer than n matches exist),
both for docx paragraphs and for the global pdf match list. -/
theorem c3_nth_global (search : Chars → Chars → Bool → Bool)
    (paras : List Paragraph) (t : Target) (doc : PdfDoc) (n : Int)
    (hm : t.mode.getD .text = ModeTag.text) (ht : t.text.getD [] ≠ [])
    (ho : t.occurrence.getD .first = OccStr.num n) (hn : 1 ≤ n) :
    docxSpecAnchors search paras t =
      ((docxMatchIdxs search paras t).drop (n - 1).toNat).take 1
    ∧ (((docxMatchIdxs search paras t).length : Int) < n →
        docxSpecAnchors search paras t = [])
    ∧ (n ≤ ((docxMatchIdxs search paras t).length : Int) →
        docxSpecAnchors search paras t =
          ((docxMatchIdxs search paras t).get? (n - 1).toNat).toList)
    ∧ pdfSpecAnchors doc t =
        (((pdfMatchesGlobal doc (t.text.getD [])).drop (n - 1).toNat).take
          1).map (fun m => PdfAnchor.highl m.1 m.2)
    ∧ (((pdfMatchesGlobal doc (t.text.getD [])).length : Int) < n →
        pdfSpecAnchors doc t = []) := by
  have hmp : t.mode.getD .text ≠ ModeTag.position := by rw [hm]; simp
  have hocc : t.occurrence.getD .first ≠ OccStr.all := by rw [ho]; simp
  have hsel : docxSpecSelected search paras t =
      ((docxMatchUnits search paras t).drop (n - 1).toNat).take 1 := by
    rw [docxSpecSelected_nth search paras t hm ht hocc, ho]
    have : ¬ occNumOf (OccStr.num n) ≤ 0 := by simp [occNumOf]; omega
    rw [if_neg this]
    rfl
  have hanch : docxSpecAnchors search paras t =
      ((docxMatchIdxs search paras t).drop (n - 1).toNat).take 1 := by
    rw [docxSpecAnchors, hsel, docxMatchIdxs, List.map_take, List.map_drop]
  have hlen : (docxMatchIdxs search paras t).length =
      (docxMatchUnits search paras t).length := by
    rw [docxMatchIdxs, List.length_map]
  have hpdf : pdfSpecAnchors doc t =
      (((pdfMatchesGlobal doc (t.text.getD [])).drop (n - 1).toNat).take
        1).map (fun m => PdfAnchor.highl m.1 m.2) :=
    pdfSpecAnchors_nth doc t hmp ht (OccStr.num n) ho (by simp) hn
  refine ⟨hanch, ?_, ?_, hpdf, ?_⟩
  · intro hlt
    rw [hanch]
    have : (docxMatchIdxs search paras t).drop (n - 1).toNat = [] := by
      rw [List.drop_eq_nil_iff]; omega
    rw [this]; rfl
  · intro hle
    rw [hanch, take_one_drop]
  · intro hlt
    rw [hpdf]
    have : (pdfMatchesGlobal doc (t.text.getD [])).drop (n - 1).toNat = [] := by
      rw [List.drop_eq_nil_iff]; omega
    rw [this]; rfl

/-- Witness for C3 at a concrete document and spec (n = 2). -/
theorem c3_nth_global_witness :
    docxSpecAnchors noSearch demoParas demoN2 =
      ((docxMatchIdxs noSearch demoParas demoN2).drop (2 - 1 : Int).toNat).take 1
    ∧ (((docxMatchIdxs noSearch demoParas demoN2).length : Int) < 2 →
        docxSpecAnchors noSearch demoParas demoN2 = [])
    ∧ (2 ≤ ((docxMatchIdxs noSearch demoParas demoN2).length : Int) →
        docxSpecAnchors noSearch demoParas demoN2 =
          ((docxMatchIdxs noSearch demoParas demoN2).get?
            (2 - 1 : Int).toNat).toList)
    ∧ pdfSpecAnchors demoDoc demoN2 =
        (((pdfMatchesGlobal demoDoc (demoN2.text.getD [])).drop
          (2 - 1 : Int).toNat).take 1).map (fun m => PdfAnchor.highl m.1 m.2)
    ∧ (((pdfMatchesGlobal demoDoc (demoN2.text.getD [])).length : Int) < 2 →
        pdfSpecAnchors demoDoc demoN2 = []) :=
  c3_nth_global noSearch demoParas demoN2 demoDoc 2 (by decide) (by decide)
    (by decide) (by decide)

/-- A position target with a bounding box but no page field at all. -/
def demoNoPage : Target :=
  ⟨some .position, none, none, none, none, none, none, some ⟨10, 10, 50, 20⟩⟩

/-- C4 as stated is false on its missing-required-field condition: a
position spec with a bounding box but no page field is not inert — the code
defaults the missing page to 1 and emits one anchor there. -/
theorem c4_missing_field_cex :
    pdfSpecAnchors demoDoc demoNoPage =
      [PdfAnchor.note 0 (Rect.tl ⟨10, 10, 50, 20⟩)]
    ∧ pdfSpecAnchors demoDoc demoNoPage ≠ [] := by
  constructor <;> decide

/-- C4 (amended): an inert spec — empty text pattern, position mode without
a bounding box, or a page outside the document — resolves to zero anchors,
and the batch result is unaffected by it, each spec contributing its anchors
independently; but a missing field with a code default is not inert: a
position spec with a bounding box and no page field is defaulted to page 1
and emits exactly one anchor there on a non-empty document. -/
theorem c4_inert_amended (search : Chars → Chars → Bool → Bool)
    (paras : List Paragraph) (t : Target) (doc : PdfDoc) :
    (t.text.getD [] = [] → docxSpecAnchors search paras t = [])
    ∧ (t.mode.getD .text ≠ ModeTag.position → t.text.getD [] = [] →
        pdfSpecAnchors doc t = [])
    ∧ (t.mode.getD .text = ModeTag.position → t.pdfBbox = none →
        pdfSpecAnchors doc t = [])
    ∧ (t.mode.getD .text = ModeTag.position →
        (t.pdfPage.getD 1 < 1 ∨ (doc.pages.length : Int) < t.pdfPage.getD 1) →
        pdfSpecAnchors doc t = [])
    ∧ (∀ b : Rect, t.mode.getD .text = ModeTag.position →
        t.pdfBbox = some b → t.pdfPage = none → 0 < doc.pages.length →
        pdfSpecAnchors doc t = [PdfAnchor.note 0 (Rect.tl b)])
    ∧ (∀ l1 l2 : List Ann, annotate_docx search paras (l1 ++ l2) =
        annotate_docx search paras l1 ++ annotate_docx search paras l2)
    ∧ (∀ l1 l2 : List Ann, annotate_pdf doc (l1 ++ l2) =
        annotate_pdf doc l1 ++ annotate_pdf doc l2)
    ∧ (∀ (a : Ann) (l1 l2 : List Ann),
        docxSpecAnchors search paras a.target = [] →
        annotate_docx search paras (l1 ++ a :: l2) =
          annotate_docx search paras (l1 ++ l2))
    ∧ (∀ (a : Ann) (l1 l2 : List Ann), pdfSpecAnchors doc a.target = [] →
        annotate_pdf doc (l1 ++ a :: l2) = annotate_pdf doc (l1 ++ l2)) := by
  have hdx : ∀ l1 l2 : List Ann, annotate_docx search paras (l1 ++ l2) =
      annotate_docx search paras l1 ++ annotate_docx search paras l2 := by
    intro l1 l2
    induction l1 with
    | nil => rfl
    | cons a rest ih => simp [annotate_docx, ih]
  have hpx : ∀ l1 l2 : List Ann, annotate_pdf doc (l1 ++ l2) =
      annotate_pdf doc l1 ++ annotate_pdf doc l2 := by
    intro l1 l2
    induction l1 with
    | nil => rfl
    | cons a rest ih => simp [annotate_pdf, ih]
  refine ⟨?_, ?_, ?_, ?_, ?_, hdx, hpx, ?_, ?_⟩
  · intro hte
    rw [docxSpecAnchors, docxSpecSelected]
    by_cases hmode : t.mode.getD .text ≠ ModeTag.text
    · rw [if_pos hmode]; rfl
    · rw [if_neg hmode, if_pos hte]; rfl
  · intro hmode hte
    simp [pdfSpecAnchors, hmode, hte]
  · intro hmode hbb
    simp [pdfSpecAnchors, hmode, hbb]
  · intro hmode hpage
    have hout : ¬ (0 ≤ t.pdfPage.getD 1 - 1 ∧
        t.pdfPage.getD 1 - 1 < (doc.pages.length : Int)) := by omega
    cases hbb : t.pdfBbox with
    | none => simp [pdfSpecAnchors, hmode, hbb]
    | some b =>
      simp [pdfSpecAnchors, hmode, hbb, hout]
      omega
  · intro b hmode hbb hp hlen
    have hcast : (0 : Int) < (doc.pages.length : Int) := by
      exact_mod_cast hlen
    simp [pdfSpecAnchors, hmode, hbb, hp, hcast]
  · intro a l1 l2 hz
    rw [hdx, hdx]
    simp [annotate_docx, hz]
  · intro a l1 l2 hz
    rw [hpx, hpx]
    simp [annotate_pdf, hz]

/-- A target with an empty text pattern, for the C4 witness. -/
def demoEmptyText : Target :=
  ⟨some .text, some [], none, none, none, some .first, none, none⟩

/-- A position target with no bounding box, for the C4 witness. -/
def demoNoBbox : Target :=
  ⟨some .position, none, none, none, none, none, some 2, none⟩

/-- A position target on a page beyond the document, for the C4 witness. -/
def demoFarPage : Target :=
  ⟨some .position, none, none, none, none, none, some 9,
    some ⟨10, 10, 50, 20⟩⟩

/-- An annotation wrapping the empty-text target, for the C4 witness. -/
def demoInertAnn : Ann := ⟨demoEmptyText, ⟨"note".toList, "R".toList⟩⟩

/-- An annotation wrapping the occurrence-first target, for batch demos. -/
def demoFirstAnn : Ann := ⟨demoFirst, ⟨"note".toList, "R".toList⟩⟩

/-- Witness for the amended C4 at concrete specs and a concrete batch,
including the page-defaults-to-1 behaviour of the missing page field. -/
theorem c4_inert_amended_witness :
    docxSpecAnchors noSearch demoParas demoEmptyText = []
    ∧ pdfSpecAnchors demoDoc demoEmptyText = []
    ∧ pdfSpecAnchors demoDoc demoNoBbox = []
    ∧ pdfSpecAnchors demoDoc demoFarPage = []
    ∧ pdfSpecAnchors demoDoc demoNoPage =
        [PdfAnchor.note 0 (Rect.tl ⟨10, 10, 50, 20⟩)]
    ∧ annotate_docx noSearch demoParas
        ([demoFirstAnn] ++ demoInertAnn :: [demoFirstAnn]) =
      annotate_docx noSearch demoParas ([demoFirstAnn] ++ [demoFirstAnn])
    ∧ annotate_pdf demoDoc ([demoFirstAnn] ++ demoInertAnn :: [demoFirstAnn]) =
      annotate_pdf demoDoc ([demoFirstAnn] ++ [demoFirstAnn]) :=
  ⟨(c4_inert_amended noSearch demoParas demoEmptyText demoDoc).1
      (by decide),
    (c4_inert_amended noSearch demoParas demoEmptyText demoDoc).2.1
      (by decide) (by decide),
    (c4_inert_amended noSearch demoParas demoNoBbox demoDoc).2.2.1
      (by decide) (by decide),
    (c4_inert_amended noSearch demoParas demoFarPage demoDoc).2.2.2.1
      (by decide) (by decide),
    (c4_inert_amended noSearch demoParas demoNoPage demoDoc).2.2.2.2.1
      ⟨10, 10, 50, 20⟩ (by decide) (by decide) (by decide) (by decide),
    (c4_inert_amended noSearch demoParas demoEmptyText
        demoDoc).2.2.2.2.2.2.2.1 demoInertAnn [demoFirstAnn] [demoFirstAnn]
      ((c4_inert_amended noSearch demoParas demoEmptyText demoDoc).1
        (by decide)),
    (c4_inert_amended noSearch demoParas demoEmptyText
        demoDoc).2.2.2.2.2.2.2.2 demoInertAnn [demoFirstAnn] [demoFirstAnn]
      ((c4_inert_amended noSearch demoParas demoEmptyText demoDoc).2.1
        (by decide) (by decide))⟩

/-- Replace only the occurrence field of a target. -/
def setOccurrence (t : Target) (o : Option OccStr) : Target :=
  ⟨t.mode, t.text, t.match_type, t.case_sensitive, t.whole_word, o,
    t.pdfPage, t.pdfBbox⟩

/-- A text-mode target whose occurrence string parses neither as first, all,
nor as an integer. -/
def demoBadOcc : Target :=
  ⟨some .text, some "cat".toList, none, none, none, some .malformed, none,
    none⟩

/-- C5 as stated is false: a spec with an unparseable occurrence string is
not inert — on a document with a matching unit it emits an anchor. -/
theorem c5_unparseable_not_inert :
    docxSpecAnchors noSearch demoParas demoBadOcc ≠ [] := by decide

/-- C5 (amended): an unparseable occurrence string never raises and never
aborts the batch, but instead of being inert it is read as the integer 1:
the spec resolves exactly as with occurrence first, in docx and in pdf. -/
theorem c5_unparseable_defaults_to_first (search : Chars → Chars → Bool → Bool)
    (paras : List Paragraph) (t : Target) (doc : PdfDoc)
    (ho : t.occurrence.getD .first = OccStr.malformed) :
    docxSpecSelected search paras t =
      docxSpecSelected search paras (setOccurrence t (some OccStr.first))
    ∧ pdfSpecAnchors doc t =
        pdfSpecAnchors doc (setOccurrence t (some OccStr.first))
    ∧ (∀ (a : Ann) (l : List Ann), annotate_docx search paras (a :: l) =
        docxSpecAnchors search paras a.target ++ annotate_docx search paras l)
    ∧ (∀ (a : Ann) (l : List Ann), annotate_pdf doc (a :: l) =
        pdfSpecAnchors doc a.target ++ annotate_pdf doc l) := by
  refine ⟨?_, ?_, fun a l => rfl, fun a l => rfl⟩
  · have hloop : ∀ l mc, docxLoop search t OccStr.malformed l mc =
        docxLoop search (setOccurrence t (some OccStr.first)) OccStr.first l
          mc := by
      intro l
      induction l with
      | nil => intro mc; rfl
      | cons a rest ih =>
        intro mc
        obtain ⟨i, p⟩ := a
        by_cases hu : unitMatches search t p
        · have hu' : unitMatches search (setOccurrence t (some OccStr.first)) p
              = true := hu
          by_cases h1 : mc = 0
          · subst h1
            simp [docxLoop, hu, hu', occNumOf, ih]
          · have h2 : ¬((mc : Int) + 1 = 1) := by omega
            have h3 : ¬(mc + 1 = 1) := by omega
            simp [docxLoop, hu, hu', occNumOf, h2, h3, ih]
        · have hu' : ¬ unitMatches search (setOccurrence t (some OccStr.first))
              p = true := hu
          simp [docxLoop, hu, hu', ih]
    rw [docxSpecSelected, docxSpecSelected, ho]
    simp only [setOccurrence, Option.getD_some]
    exact if_congr Iff.rfl rfl (if_congr Iff.rfl rfl (hloop _ _))
  · rw [pdfSpecAnchors, pdfSpecAnchors, ho]
    simp only [setOccurrence, Option.getD_some]
    by_cases hmode : t.mode.getD .text = ModeTag.position
    · simp [hmode]
    · simp only [hmode, if_neg, if_false]
      by_cases hte : t.text.getD [] = []
      · simp [hte]
      · simp only [hte, if_neg, if_false]
        by_cases hmg : pdfMatchesGlobal doc (t.text.getD []) = []
        · simp [hmg]
        · simp [hmg, occNumOf]

/-- Witness for the amended C5 at a concrete document and spec. -/
theorem c5_unparseable_defaults_to_first_witness :
    docxSpecSelected noSearch demoParas demoBadOcc =
      docxSpecSelected noSearch demoParas
        (setOccurrence demoBadOcc (some OccStr.first))
    ∧ pdfSpecAnchors demoDoc demoBadOcc =
        pdfSpecAnchors demoDoc (setOccurrence demoBadOcc (some OccStr.first))
    ∧ (∀ (a : Ann) (l : List Ann), annotate_docx noSearch demoParas (a :: l) =
        docxSpecAnchors noSearch demoParas a.target ++
          annotate_docx noSearch demoParas l)
    ∧ (∀ (a : Ann) (l : List Ann), annotate_pdf demoDoc (a :: l) =
        pdfSpecAnchors demoDoc a.target ++ annotate_pdf demoDoc l) :=
  c5_unparseable_defaults_to_first noSearch demoParas demoBadOcc demoDoc
    (by decide)

/-- C6: a position-mode spec with a bounding box and a 1-based page inside
the document emits exactly one anchor on that page at the top-left corner of
the box; with the box missing or the page out of range it emits nothing. -/
theorem c6_position_top_left (doc : PdfDoc) (t : Target)
    (hm : t.mode.getD .text = ModeTag.position) :
    (∀ b, t.pdfBbox = some b → 1 ≤ t.pdfPage.getD 1 →
        t.pdfPage.getD 1 ≤ (doc.pages.length : Int) →
        pdfSpecAnchors doc t =
          [PdfAnchor.note (t.pdfPage.getD 1 - 1).toNat (Rect.tl b)])
    ∧ (t.pdfBbox = none → pdfSpecAnchors doc t = [])
    ∧ ((t.pdfPage.getD 1 < 1 ∨ (doc.pages.length : Int) < t.pdfPage.getD 1) →
        pdfSpecAnchors doc t = []) := by
  refine ⟨?_, ?_, ?_⟩
  · intro b hbb h1 h2
    have hin : 0 ≤ t.pdfPage.getD 1 - 1 ∧
        t.pdfPage.getD 1 - 1 < (doc.pages.length : Int) := by omega
    simp [pdfSpecAnchors, hm, hbb, hin]
  · intro hbb
    simp [pdfSpecAnchors, hm, hbb]
  · intro hpage
    have hout : ¬ (0 ≤ t.pdfPage.getD 1 - 1 ∧
        t.pdfPage.getD 1 - 1 < (doc.pages.length : Int)) := by omega
    cases hbb : t.pdfBbox with
    | none => simp [pdfSpecAnchors, hm, hbb]
    | some b =>
      simp [pdfSpecAnchors, hm, hbb, hout]
      omega

/-- A position target on page 2 with a bounding box, for the C6 witness. -/
def demoPos : Target :=
  ⟨some .position, none, none, none, none, none, some 2,
    some ⟨10, 10, 50, 20⟩⟩

/-- Witness for C6: page 2 of the three-page demo document gets one anchor
at the top-left of the box; page 9 gets none; a missing box gets none. -/
theorem c6_position_top_left_witness :
    pdfSpecAnchors demoDoc demoPos =
      [PdfAnchor.note ((demoPos.pdfPage.getD 1 - 1).toNat)
        (Rect.tl ⟨10, 10, 50, 20⟩)]
    ∧ pdfSpecAnchors demoDoc demoNoBbox = []
    ∧ pdfSpecAnchors demoDoc demoFarPage = [] :=
  ⟨(c6_position_top_left demoDoc demoPos (by decide)).1 ⟨10, 10, 50, 20⟩
      (by decide) (by decide) (by decide),
    (c6_position_top_left demoDoc demoNoBbox (by decide)).2.1 (by decide),
    (c6_position_top_left demoDoc demoFarPage (by decide)).2.2 (by decide)⟩

/-- Unfolding the literal branch of match_text_in_paragraph: the comparison
happens on case-folded copies exactly when case_sensitive is false. -/
lemma match_exact_unfold (search : Chars → Chars → Bool → Bool)
    (para pat : Chars) (cs ww : Bool) :
    match_text_in_paragraph search para pat .exact cs ww =
      (if ww then
        wholeWordContains (if cs then pat else lowerChars pat)
          (if cs then para else lowerChars para)
      else
        containsSub (if cs then pat else lowerChars pat)
          (if cs then para else lowerChars para)) := rfl

/-- Unfolding the regex branch: the original pattern (wrapped when
whole_word) goes to the engine together with the text unchanged, and the
ignore-case flag is the negation of case_sensitive. -/
lemma match_regex_unfold (search : Chars → Chars → Bool → Bool)
    (para pat : Chars) (cs ww : Bool) :
    match_text_in_paragraph search para pat .regex cs ww =
      search (if ww then wordBWrap pat else pat) para (!cs) := rfl

/-- C7: with case_sensitive false a Literal pattern is compared against the
unit text with both sides lowercased — so Result is found inside
the RESULT was — while with case_sensitive true the same comparison is
unfolded and fails there; a Regex pattern is instead passed unlowercased and
the ignore-case flag is set exactly when case_sensitive is false. -/
theorem c7_case_handling :
    (∀ (search : Chars → Chars → Bool → Bool) (para pat : Chars) (ww : Bool),
      match_text_in_paragraph search para pat .exact false ww =
        (if ww then wholeWordContains (lowerChars pat) (lowerChars para)
         else containsSub (lowerChars pat) (lowerChars para)))
    ∧ (∀ (search : Chars → Chars → Bool → Bool) (para pat : Chars)
        (ww : Bool),
      match_text_in_paragraph search para pat .exact true ww =
        (if ww then wholeWordContains pat para else containsSub pat para))
    ∧ (∀ (search : Chars → Chars → Bool → Bool) (ww : Bool),
      match_text_in_paragraph search "the RESULT was".toList "Result".toList
        .exact false ww = true)
    ∧ (∀ (search : Chars → Chars → Bool → Bool) (ww : Bool),
      match_text_in_paragraph search "the RESULT was".toList "Result".toList
        .exact true ww = false)
    ∧ (∀ (search : Chars → Chars → Bool → Bool) (para pat : Chars)
        (cs ww : Bool),
      match_text_in_paragraph search para pat .regex cs ww =
        search (if ww then wordBWrap pat else pat) para (!cs)) := by
  refine ⟨?_, ?_, ?_, ?_, ?_⟩
  · intro search para pat ww
    exact match_exact_unfold search para pat false ww
  · intro search para pat ww
    exact match_exact_unfold search para pat true ww
  · intro search ww
    rw [match_exact_unfold]
    cases ww <;> decide
  · intro search ww
    rw [match_exact_unfold]
    cases ww <;> decide
  · intro search para pat cs ww
    exact match_regex_unfold search para pat cs ww

/-- startsList holds exactly when the second list extends the first. -/
lemma startsList_iff : ∀ p t : Chars, startsList p t = true ↔ ∃ s, t = p ++ s := by
  intro p
  induction p with
  | nil => intro t; simp [startsList]
  | cons a as ih =>
    intro t
    cases t with
    | nil => simp [startsList]
    | cons b bs =>
      simp only [startsList, Bool.and_eq_true, beq_iff_eq, ih, List.cons_append]
      constructor
      · rintro ⟨rfl, s, rfl⟩
        exact ⟨s, rfl⟩
      · rintro ⟨s, h⟩
        injection h with h1 h2
        exact ⟨h1.symm, s, h2⟩

/-- A prefix occurrence at position i pins down the text characters there. -/
lemma startsList_get (p t : Chars) (i : Nat)
    (h : startsList p (t.drop i) = true) (j : Nat) (hj : j < p.length) :
    t.get? (i + j) = p.get? j := by
  obtain ⟨s, hs⟩ := (startsList_iff p (t.drop i)).1 h
  rw [← List.get?_drop, hs, List.get?_append hj]

/-- The positions at which the embedded whole-word search succeeds. -/
lemma wholeWordContains_iff (pat text : Chars) :
    wholeWordContains pat text = true ↔
      ∃ i, i ≤ text.length ∧ startsList pat (text.drop i) = true ∧
        boundaryAt text i = true ∧ boundaryAt text (i + pat.length) = true := by
  simp [wholeWordContains, wwOccursAt, List.any_eq_true, List.mem_range,
    Nat.lt_succ_iff, and_assoc]

/-- The claim reading of whole-word matching, written from the spec words
for comparison: the pattern occurs as a token bounded by non-word characters
or by the unit boundaries on both sides. -/
def tokenBounded (pat text : Chars) : Bool :=
  (List.range (text.length + 1)).any (fun i =>
    startsList pat (text.drop i) &&
    (decide (i = 0) || !wordAt text (i - 1)) &&
    (decide (i + pat.length = text.length) || !wordAt text (i + pat.length)))

/-- For a pattern whose first and last characters are word characters, the
word-boundary search of the code agrees with the token-bounded reading. -/
lemma wholeWordContains_eq_tokenBounded (pat text : Chars) (c0 cl : Char)
    (h0 : pat.get? 0 = some c0) (hw0 : isWordChar c0 = true)
    (hl : pat.get? (pat.length - 1) = some cl) (hwl : isWordChar cl = true) :
    wholeWordContains pat text = tokenBounded pat text := by
  have hplen : 0 < pat.length := by
    cases pat with
    | nil => simp at h0
    | cons a as => simp
  rw [wholeWordContains, tokenBounded]
  congr 1
  funext i
  rw [wwOccursAt]
  by_cases hs : startsList pat (text.drop i) = true
  · have hgi : text.get? (i + 0) = pat.get? 0 :=
      startsList_get pat text i hs 0 hplen
    have hwi : wordAt text i = true := by
      rw [Nat.add_zero] at hgi
      rw [wordAt, hgi, h0]
      simpa using hw0
    have hgl : text.get? (i + (pat.length - 1)) = pat.get? (pat.length - 1) :=
      startsList_get pat text i hs (pat.length - 1) (by omega)
    have hwl' : wordAt text (i + pat.length - 1) = true := by
      have he : i + pat.length - 1 = i + (pat.length - 1) := by omega
      rw [wordAt, he, hgl, hl]
      simpa using hwl
    have hb1 : boundaryAt text i =
        ((decide (i = 0)) || !wordAt text (i - 1)) := by
      rw [boundaryAt, hwi]
      by_cases hi : i = 0
      · subst hi; simp
      · simp [hi]
    have hb2 : boundaryAt text (i + pat.length) =
        ((decide (i + pat.length = text.length)) ||
          !wordAt text (i + pat.length)) := by
      have hnz : ¬ (i + pat.length = 0) := by omega
      rw [boundaryAt, if_neg hnz, hwl']
      by_cases he : i + pat.length = text.length
      · have hnone : wordAt text (i + pat.length) = false := by
          rw [wordAt, List.get?_eq_none.mpr (by omega)]
          rfl
        rw [hnone]
        simp
      · simp [he]
    rw [hs, hb1, hb2]
  · have hs' : startsList pat (text.drop i) = false := by
      cases h : startsList pat (text.drop i)
      · rfl
      · exact absurd h hs
    rw [hs']
    simp

/-- C8 as stated is false: for the Literal pattern -a with whole_word, the
unit b-a matches in the code (the regex word boundary holds between the word
character b and the non-word hyphen), yet the occurrence is not bounded by a
non-word character or the unit boundary on its left. -/
theorem c8_token_reading_cex :
    match_text_in_paragraph noSearch "b-a".toList "-a".toList .exact true true
      = true
    ∧ tokenBounded "-a".toList "b-a".toList = false := by
  constructor <;> decide

/-- C8 (amended): with whole_word, a Literal pattern matches exactly when it
occurs at a position of the (case-folded) unit text with a regex word
boundary on both ends — a change of word-character-ness, which for patterns
beginning and ending with word characters coincides with being bounded by
non-word characters or the unit boundaries; in particular cat does not match
category but does match the cat sat. -/
theorem c8_whole_word_boundary :
    (∀ (search : Chars → Chars → Bool → Bool) (para pat : Chars) (cs : Bool),
      match_text_in_paragraph search para pat .exact cs true = true ↔
        ∃ i, i ≤ (if cs then para else lowerChars para).length ∧
          startsList (if cs then pat else lowerChars pat)
            ((if cs then para else lowerChars para).drop i) = true ∧
          boundaryAt (if cs then para else lowerChars para) i = true ∧
          boundaryAt (if cs then para else lowerChars para)
            (i + (if cs then pat else lowerChars pat).length) = true)
    ∧ (∀ (pat text : Chars) (c0 cl : Char), pat.get? 0 = some c0 →
        isWordChar c0 = true → pat.get? (pat.length - 1) = some cl →
        isWordChar cl = true →
        wholeWordContains pat text = tokenBounded pat text)
    ∧ (∀ (search : Chars → Chars → Bool → Bool) (cs : Bool),
      match_text_in_paragraph search "category".toList "cat".toList .exact cs
        true = false)
    ∧ (∀ (search : Chars → Chars → Bool → Bool) (cs : Bool),
      match_text_in_paragraph search "the cat sat".toList "cat".toList .exact
        cs true = true) := by
  refine ⟨?_, ?_, ?_, ?_⟩
  · intro search para pat cs
    rw [match_exact_unfold]
    exact wholeWordContains_iff _ _
  · intro pat text c0 cl h0 hw0 hl hwl
    exact wholeWordContains_eq_tokenBounded pat text c0 cl h0 hw0 hl hwl
  · intro search cs
    rw [match_exact_unfold]
    cases cs <;> decide
  · intro search cs
    rw [match_exact_unfold]
    cases cs <;> decide

/-- Witness for the amended C8: the agreement for the word-edged pattern cat
on the unit the cat sat, with the edge hypotheses discharged concretely. -/
theorem c8_whole_word_boundary_witness :
    wholeWordContains "cat".toList "the cat sat".toList =
      tokenBounded "cat".toList "the cat sat".toList :=
  c8_whole_word_boundary.2.1 "cat".toList "the cat sat".toList 'c' 't'
    (by decide) (by decide) (by decide) (by decide)

/-- Replace only the mode field of a target. -/
def setMode (t : Target) (m : Option ModeTag) : Target :=
  ⟨m, t.text, t.match_type, t.case_sensitive, t.whole_word, t.occurrence,
    t.pdfPage, t.pdfBbox⟩

/-- A target carrying an unrecognized mode tag over the cat pattern. -/
def demoOtherMode : Target :=
  ⟨some .other, some "cat".toList, none, none, none, some .first, none, none⟩

/-- C9 as stated is false: in docx resolution a spec with an unrecognized
mode tag is skipped outright, so it does not produce the anchors of the same
spec with mode text. -/
theorem c9_mode_default_cex :
    docxSpecAnchors noSearch demoParas demoOtherMode ≠
      docxSpecAnchors noSearch demoParas
        (setMode demoOtherMode (some ModeTag.text)) := by
  decide

/-- C9 (amended): a missing mode tag defaults to text mode in both
resolvers, and the pdf resolver also treats any unrecognized tag as text
mode; the docx resolver instead skips every spec whose tag is not exactly
text (unrecognized tags and position alike yield zero anchors there). -/
theorem c9_mode_default_amended (search : Chars → Chars → Bool → Bool)
    (paras : List Paragraph) (t : Target) (doc : PdfDoc) :
    (t.mode = none → docxSpecSelected search paras t =
        docxSpecSelected search paras (setMode t (some ModeTag.text)))
    ∧ (t.mode = none ∨ t.mode = some ModeTag.other →
        pdfSpecAnchors doc t =
          pdfSpecAnchors doc (setMode t (some ModeTag.text)))
    ∧ (t.mode = some ModeTag.other → docxSpecAnchors search paras t = [])
    ∧ (t.mode = some ModeTag.position →
        docxSpecAnchors search paras t = []) := by
  have hloop : ∀ (occ : OccStr) (l : List (Nat × Paragraph)) (mc : Nat),
      docxLoop search t occ l mc =
        docxLoop search (setMode t (some ModeTag.text)) occ l mc :=
    fun occ l => docxLoop_congr search t (setMode t (some ModeTag.text))
      (fun p => rfl) occ l
  refine ⟨?_, ?_, ?_, ?_⟩
  · intro hm
    rw [docxSpecSelected, docxSpecSelected, hm]
    simp only [setMode, Option.getD_some, Option.getD_none]
    exact if_congr Iff.rfl rfl (if_congr Iff.rfl rfl (hloop _ _ _))
  · intro hm
    have hgd : t.mode.getD .text ≠ ModeTag.position := by
      rcases hm with h | h <;> rw [h] <;> simp
    rw [pdfSpecAnchors, pdfSpecAnchors]
    simp only [setMode, Option.getD_some]
    rw [if_neg hgd, if_neg (by simp : ¬ (ModeTag.text = ModeTag.position))]
  · intro hm
    rw [docxSpecAnchors, docxSpecSelected, hm]
    simp
  · intro hm
    rw [docxSpecAnchors, docxSpecSelected, hm]
    simp

/-- A text-pattern target with no mode tag at all. -/
def demoNoMode : Target :=
  ⟨none, some "cat".toList, none, none, none, some .first, none, none⟩

/-- Witness for the amended C9 at concrete specs. -/
theorem c9_mode_default_amended_witness :
    (docxSpecSelected noSearch demoParas demoNoMode =
      docxSpecSelected noSearch demoParas
        (setMode demoNoMode (some ModeTag.text)))
    ∧ pdfSpecAnchors demoDoc demoOtherMode =
        pdfSpecAnchors demoDoc (setMode demoOtherMode (some ModeTag.text))
    ∧ docxSpecAnchors noSearch demoParas demoOtherMode = [] :=
  ⟨(c9_mode_default_amended noSearch demoParas demoNoMode demoDoc).1 rfl,
    (c9_mode_default_amended noSearch demoParas demoOtherMode demoDoc).2.1
      (Or.inr rfl),
    (c9_mode_default_amended noSearch demoParas demoOtherMode demoDoc).2.2.1
      rfl⟩

/-- C10: when the first matching paragraph has an empty run list, occurrence
First still selects it (the counter advances and the loop breaks), but
add_comment_to_paragraph attaches nothing, so zero comments result even if
later paragraphs match. -/
theorem c10_runless_first_match (search : Chars → Chars → Bool → Bool)
    (paras : List Paragraph) (t : Target)
    (hm : t.mode.getD .text = ModeTag.text) (ht : t.text.getD [] ≠ [])
    (ho : t.occurrence.getD .first = OccStr.first)
    (j : Nat) (p : Paragraph) (rest : List (Nat × Paragraph))
    (hhead : docxMatchUnits search paras t = (j, p) :: rest)
    (hruns : p.runs = 0) :
    docxSpecSelected search paras t = [(j, p)]
    ∧ docxSpecCommented search paras t = [] := by
  have hocc : t.occurrence.getD .first ≠ OccStr.all := by rw [ho]; simp
  have hsel : docxSpecSelected search paras t = [(j, p)] := by
    rw [docxSpecSelected_nth search paras t hm ht hocc, ho]
    norm_num [occNumOf]
    rw [hhead]
    rfl
  refine ⟨hsel, ?_⟩
  rw [docxSpecCommented, hsel]
  simp [List.filter_cons, hruns]

/-- Demo paragraphs for C10: the first cat match carries no runs, the second
carries three. -/
def demoRunless : List Paragraph :=
  [⟨"the cat".toList, 0⟩, ⟨"a cat".toList, 3⟩]

/-- Witness for C10: the runless first match is selected, consumes the First
slot, and no comment lands anywhere although the second paragraph matches
and has runs. -/
theorem c10_runless_first_match_witness :
    docxSpecSelected noSearch demoRunless demoFirst =
      [(0, ⟨"the cat".toList, 0⟩)]
    ∧ docxSpecCommented noSearch demoRunless demoFirst = [] :=
  c10_runless_first_match noSearch demoRunless demoFirst (by decide)
    (by decide) (by decide) 0 ⟨"the cat".toList, 0⟩
    [(1, ⟨"a cat".toList, 3⟩)] (by decide) rfl
